import Mathlib

/-!
Verification of the tile-pyramid downloader (`twinnerDownloader.py`).

The development shallowly embeds the program's core:

* `computeLevels` — the level-size loop of `Folder.__init__` (lines 28-33);
* `columns` / `rows` — the grid counts of `Folder.download` (lines 37-38)
  and `Folder.join_tiles` (lines 56-57);
* `ensureTile` / `downloadLevel` — the cache-aware fetch loop of
  `Folder.download` (lines 40-52), with the HTTP layer modelled as a pure
  environment `String → Response` and the filesystem cache as a pure map
  `String → Option (List Nat)`;
* `writeTileOps` — the two filesystem steps of the cache write
  (`open(outPath, "wb")` then `file.write(blob)`, lines 51-52) as an
  explicit operation trace, to reason about observability of interrupted
  writes;
* `joinTiles` / `pasteImg` — the compositing loop of `Folder.join_tiles`
  (lines 54-67), with PIL decoding abstracted as a parameter
  `List Nat → Option Canvas` and `Image.paste` modelled with its clipping
  behaviour.

Machine integers of the source are modelled as `Int` (Python integers are
unbounded); `math.ceil(n * 0.5)` on integers equals the exact integer
ceiling `(n + 1) / 2` for all magnitudes where the float product is exact,
which is the semantics embedded here.
-/

/-- One pyramid level, the dict `{"width": w, "height": h}` appended by
`Folder.__init__` (line 30). Dimensions are `Int` because the source never
validates them. -/
structure Level where
  width : Int
  height : Int
deriving Repr, DecidableEq

/-- `math.ceil(n * 0.5)` for an integer `n` (lines 31-32): the ceiling of
`n / 2`, written with Euclidean division as `(n + 1) / 2`. -/
def ceilHalf (n : Int) : Int := (n + 1) / 2

/-- The level-size loop of `Folder.__init__` (lines 29-32), in append
order: `while width > 1 or height > 1: append; halve`. -/
def levelLoop (w h : Int) : List Level :=
  if 1 < w ∨ 1 < h then
    ⟨w, h⟩ :: levelLoop (ceilHalf w) (ceilHalf h)
  else []
termination_by w.toNat + h.toNat
decreasing_by
  unfold ceilHalf
  omega

/-- Unfolding equation for `levelLoop`. -/
theorem levelLoop_eq (w h : Int) :
    levelLoop w h =
      if 1 < w ∨ 1 < h then
        ⟨w, h⟩ :: levelLoop (ceilHalf w) (ceilHalf h)
      else [] := by
  rw [levelLoop]

/-- `self.levels` at the end of `Folder.__init__` (line 33): the appended
levels, reversed. -/
def computeLevels (w h : Int) : List Level :=
  (levelLoop w h).reverse

/-- Error taxonomy named by the specification.  The source code raises
none of these; the type records the failure channel the spec describes so
that claims about failing can be stated. -/
inductive DLError where
  | invalidMetadata : DLError
  | fetchFailure : String → Nat → DLError
deriving Repr, DecidableEq

/-- `Folder.__init__` (lines 22-33) as a fallible computation.  The source
performs no validation of `width`/`height` and contains no `raise`, so the
embedding always returns `Except.ok` of the computed level list. -/
def folderInitLevels (w h : Int) : Except DLError (List Level) :=
  Except.ok (computeLevels w h)

theorem levelLoop_nil_iff (w h : Int) : levelLoop w h = [] ↔ w ≤ 1 ∧ h ≤ 1 := by
  rw [levelLoop_eq]
  by_cases hc : 1 < w ∨ 1 < h
  · simp only [if_pos hc]
    constructor
    · intro habs; exact absurd habs (List.cons_ne_nil _ _)
    · intro hwh; omega
  · rw [if_neg hc]
    constructor <;> intro _ <;> first | omega | trivial

theorem levelLoop_cons (w h : Int) (hc : 1 < w ∨ 1 < h) :
    levelLoop w h = ⟨w, h⟩ :: levelLoop (ceilHalf w) (ceilHalf h) := by
  rw [levelLoop_eq, if_pos hc]

theorem levelLoop_head? (w h : Int) :
    (levelLoop w h).head? = if 1 < w ∨ 1 < h then some ⟨w, h⟩ else none := by
  rw [levelLoop_eq]
  by_cases hc : 1 < w ∨ 1 < h
  · simp [hc]
  · simp [hc]

/-- The sizes-halve relation in append order: each appended level is
followed by its ceiling-half. -/
def halfRel (a b : Level) : Prop :=
  b.width = ceilHalf a.width ∧ b.height = ceilHalf a.height

theorem levelLoop_chain_aux (n : ℕ) :
    ∀ w h : Int, w.toNat + h.toNat ≤ n → List.Chain' halfRel (levelLoop w h) := by
  induction n with
  | zero =>
    intro w h hn
    have hnil : levelLoop w h = [] := (levelLoop_nil_iff w h).mpr (by omega)
    rw [hnil]
    exact List.chain'_nil
  | succ n ih =>
    intro w h hn
    by_cases hc : 1 < w ∨ 1 < h
    · rw [levelLoop_cons w h hc]
      refine List.chain'_cons'.mpr ⟨?_, ih _ _ (by unfold ceilHalf; omega)⟩
      intro b hb
      rw [levelLoop_head?] at hb
      by_cases hc' : 1 < ceilHalf w ∨ 1 < ceilHalf h
      · rw [if_pos hc'] at hb
        cases hb
        exact ⟨rfl, rfl⟩
      · rw [if_neg hc'] at hb
        cases hb
    · rw [(levelLoop_nil_iff w h).mpr (by omega)]
      exact List.chain'_nil

theorem levelLoop_chain (w h : Int) : List.Chain' halfRel (levelLoop w h) :=
  levelLoop_chain_aux (w.toNat + h.toNat) w h le_rfl

theorem levelLoop_getLast_aux (n : ℕ) :
    ∀ w h : Int, w.toNat + h.toNat ≤ n → (1 < w ∨ 1 < h) →
      ∃ l, (levelLoop w h).getLast? = some l ∧
        l.width ≤ 2 ∧ l.height ≤ 2 ∧ (1 < l.width ∨ 1 < l.height) := by
  induction n with
  | zero =>
    intro w h hn hc
    omega
  | succ n ih =>
    intro w h hn hc
    rw [levelLoop_cons w h hc]
    by_cases hc' : 1 < ceilHalf w ∨ 1 < ceilHalf h
    · obtain ⟨l, hl, h2w, h2h, hone⟩ := ih (ceilHalf w) (ceilHalf h)
        (by unfold ceilHalf; omega) hc'
      refine ⟨l, ?_, h2w, h2h, hone⟩
      rw [levelLoop_cons (ceilHalf w) (ceilHalf h) hc'] at hl ⊢
      rw [List.getLast?_cons_cons]
      exact hl
    · have hnil : levelLoop (ceilHalf w) (ceilHalf h) = [] :=
        (levelLoop_nil_iff _ _).mpr (by omega)
      rw [hnil]
      refine ⟨⟨w, h⟩, rfl, ?_, ?_, hc⟩
      · show w ≤ 2
        unfold ceilHalf at hc'; omega
      · show h ≤ 2
        unfold ceilHalf at hc'; omega

theorem levelLoop_getLast (w h : Int) (hc : 1 < w ∨ 1 < h) :
    ∃ l, (levelLoop w h).getLast? = some l ∧
      l.width ≤ 2 ∧ l.height ≤ 2 ∧ (1 < l.width ∨ 1 < l.height) :=
  levelLoop_getLast_aux (w.toNat + h.toNat) w h le_rfl hc

theorem levelLoop_mem_aux (n : ℕ) :
    ∀ w h : Int, w.toNat + h.toNat ≤ n → 0 < w → 0 < h →
      ∀ l ∈ levelLoop w h, 0 < l.width ∧ 0 < l.height := by
  induction n with
  | zero =>
    intro w h hn hw hh
    omega
  | succ n ih =>
    intro w h hn hw hh l hl
    by_cases hc : 1 < w ∨ 1 < h
    · rw [levelLoop_cons w h hc] at hl
      rcases List.mem_cons.mp hl with heq | htail
      · subst heq; exact ⟨hw, hh⟩
      · exact ih (ceilHalf w) (ceilHalf h) (by unfold ceilHalf; omega)
          (by unfold ceilHalf; omega) (by unfold ceilHalf; omega) l htail
    · rw [(levelLoop_nil_iff w h).mpr (by omega)] at hl
      cases hl

theorem levelLoop_dropLast_aux (n : ℕ) :
    ∀ w h : Int, w.toNat + h.toNat ≤ n →
      ∀ l ∈ (levelLoop w h).dropLast, 2 < l.width ∨ 2 < l.height := by
  induction n with
  | zero =>
    intro w h hn
    rw [(levelLoop_nil_iff w h).mpr (by omega)]
    intro l hl
    cases hl
  | succ n ih =>
    intro w h hn l hl
    by_cases hc : 1 < w ∨ 1 < h
    · rw [levelLoop_cons w h hc] at hl
      by_cases hc' : 1 < ceilHalf w ∨ 1 < ceilHalf h
      · rw [levelLoop_cons (ceilHalf w) (ceilHalf h) hc'] at hl
        rw [List.dropLast_cons₂] at hl
        rcases List.mem_cons.mp hl with heq | htail
        · subst heq
          unfold ceilHalf at hc'
          dsimp only
          omega
        · rw [← levelLoop_cons (ceilHalf w) (ceilHalf h) hc'] at htail
          exact ih (ceilHalf w) (ceilHalf h) (by unfold ceilHalf; omega) l htail
      · rw [(levelLoop_nil_iff (ceilHalf w) (ceilHalf h)).mpr (by omega)] at hl
        cases hl
    · rw [(levelLoop_nil_iff w h).mpr (by omega)] at hl
      cases hl

/-- C1 counterexample: from base (2, 2) the produced sequence is the single
level (2, 2); `levels[0]` does not have width and height equal to 1. -/
theorem levels_head_one_one_cex :
    computeLevels 2 2 = [⟨2, 2⟩] ∧ ({ width := 2, height := 2 } : Level).width ≠ 1 := by
  constructor
  · rw [computeLevels, levelLoop_eq, levelLoop_eq]
    norm_num [ceilHalf]
  · decide

/-- C1 (amended): for base dimensions at least 1 with at least one greater
than 1, the sequence terminates at a first entry whose width and height are
both at most 2 (not both equal to 1: at least one of them equals 2); that
entry is `levels[0]`, and every later entry has a dimension exceeding 2. -/
theorem levels_head_le_two (w h : Int) (hw : 1 ≤ w) (hh : 1 ≤ h)
    (hc : 1 < w ∨ 1 < h) :
    ∃ l0, (computeLevels w h).head? = some l0 ∧
      1 ≤ l0.width ∧ l0.width ≤ 2 ∧ 1 ≤ l0.height ∧ l0.height ≤ 2 ∧
      (l0.width = 2 ∨ l0.height = 2) ∧
      ∀ l ∈ (computeLevels w h).tail, 2 < l.width ∨ 2 < l.height := by
  obtain ⟨l0, hlast, h2w, h2h, hone⟩ := levelLoop_getLast w h hc
  have hmem : l0 ∈ levelLoop w h := List.mem_of_getLast?_eq_some hlast
  have hpos := levelLoop_mem_aux (w.toNat + h.toNat) w h le_rfl
    (by omega) (by omega) l0 hmem
  refine ⟨l0, ?_, by omega, h2w, by omega, h2h, by omega, ?_⟩
  · rw [computeLevels, List.head?_reverse]
    exact hlast
  · intro l hl
    rw [computeLevels, List.tail_reverse, List.mem_reverse] at hl
    exact levelLoop_dropLast_aux (w.toNat + h.toNat) w h le_rfl l hl

/-- Witness for the amended C1 theorem at base (3, 1). -/
theorem levels_head_le_two_witness :
    (1 : Int) ≤ 3 ∧ (1 : Int) ≤ 1 ∧ ((1 : Int) < 3 ∨ (1 : Int) < 1) ∧
      (∃ l0, (computeLevels 3 1).head? = some l0 ∧
        1 ≤ l0.width ∧ l0.width ≤ 2 ∧ 1 ≤ l0.height ∧ l0.height ≤ 2 ∧
        (l0.width = 2 ∨ l0.height = 2) ∧
        ∀ l ∈ (computeLevels 3 1).tail, 2 < l.width ∨ 2 < l.height) :=
  ⟨by decide, by decide, by decide,
    levels_head_le_two 3 1 (by decide) (by decide) (by decide)⟩

/-- C2 counterexample: base width and height both 1 (positive integers)
yield the empty level sequence, so the sequence has no last entry equal to
the base size. -/
theorem levels_base_one_one_cex :
    computeLevels 1 1 = [] ∧ (computeLevels 1 1).getLast? ≠ some ⟨1, 1⟩ := by
  have hnil : computeLevels 1 1 = [] := by
    rw [computeLevels, (levelLoop_nil_iff 1 1).mpr (by decide)]
    rfl
  exact ⟨hnil, by rw [hnil]; decide⟩

/-- C2 (amended): for positive base dimensions with at least one greater
than 1, the produced sequence is non-empty, its last entry is the base
(W, H), and consecutive entries satisfy the exact ceiling-halving relation
`levels[i] = ceilHalf levels[i+1]` componentwise; for base (1, 1) the
sequence is empty. -/
theorem levels_last_and_chain (w h : Int) (hw : 0 < w) (hh : 0 < h) :
    ((1 < w ∨ 1 < h) →
      computeLevels w h ≠ [] ∧
      (computeLevels w h).getLast? = some ⟨w, h⟩ ∧
      List.Chain' (fun a b => a.width = ceilHalf b.width ∧ a.height = ceilHalf b.height)
        (computeLevels w h)) ∧
    (w = 1 → h = 1 → computeLevels w h = []) := by
  constructor
  · intro hc
    refine ⟨?_, ?_, ?_⟩
    · rw [computeLevels]
      intro habs
      rw [List.reverse_eq_nil_iff, levelLoop_nil_iff] at habs
      omega
    · rw [computeLevels, List.getLast?_reverse, levelLoop_head?, if_pos hc]
    · rw [computeLevels]
      exact List.chain'_reverse.mpr (levelLoop_chain w h)
  · intro hw1 hh1
    subst hw1; subst hh1
    rw [computeLevels, (levelLoop_nil_iff 1 1).mpr (by decide)]
    rfl

/-- Witness for the amended C2 theorem at base (4, 3). -/
theorem levels_last_and_chain_witness :
    (0 : Int) < 4 ∧ (0 : Int) < 3 ∧
      (((1 : Int) < 4 ∨ (1 : Int) < 3) →
        computeLevels 4 3 ≠ [] ∧
        (computeLevels 4 3).getLast? = some ⟨4, 3⟩ ∧
        List.Chain' (fun a b => a.width = ceilHalf b.width ∧ a.height = ceilHalf b.height)
          (computeLevels 4 3)) ∧
      ((4 : Int) = 1 → (3 : Int) = 1 → computeLevels 4 3 = []) :=
  ⟨by decide, by decide, (levels_last_and_chain 4 3 (by decide) (by decide)).1,
    (levels_last_and_chain 4 3 (by decide) (by decide)).2⟩

/-- C4 counterexample: with base dimensions (0, 0) — both non-positive —
`Folder.__init__` does not fail with `InvalidMetadata`: it returns normally
with the empty level list; and with base (-3, 9) it returns normally with a
level sequence carrying the non-positive dimension through. -/
theorem invalid_metadata_cex :
    folderInitLevels 0 0 = Except.ok [] ∧
    folderInitLevels 0 0 ≠ Except.error DLError.invalidMetadata ∧
    computeLevels (-3) 9 = [⟨0, 2⟩, ⟨0, 3⟩, ⟨-1, 5⟩, ⟨-3, 9⟩] := by
  have h00 : computeLevels 0 0 = [] := by
    rw [computeLevels, (levelLoop_nil_iff 0 0).mpr (by decide)]
    rfl
  refine ⟨?_, ?_, ?_⟩
  · rw [folderInitLevels, h00]
  · intro habs
    rw [folderInitLevels] at habs
    exact Except.noConfusion habs
  · rw [computeLevels, levelLoop_eq, levelLoop_eq, levelLoop_eq, levelLoop_eq,
      levelLoop_eq]
    norm_num [ceilHalf]

/-- C4 (amended): the Level Calculator performs no validation: for every
base width and height (non-positive included) it fails with no error at
all; when both dimensions are at most 1 it returns the empty level list,
and whenever the height exceeds 1 (even with non-positive width) it returns
a non-empty level sequence. -/
theorem folder_init_never_fails (w h : Int) :
    (∀ e : DLError, folderInitLevels w h ≠ Except.error e) ∧
    (w ≤ 1 → h ≤ 1 → folderInitLevels w h = Except.ok []) ∧
    (1 < h → computeLevels w h ≠ []) := by
  refine ⟨?_, ?_, ?_⟩
  · intro e habs
    rw [folderInitLevels] at habs
    exact Except.noConfusion habs
  · intro hw1 hh1
    rw [folderInitLevels, computeLevels, (levelLoop_nil_iff w h).mpr ⟨hw1, hh1⟩]
    rfl
  · intro hh1 habs
    rw [computeLevels, List.reverse_eq_nil_iff, levelLoop_nil_iff] at habs
    omega

/-- Witness for the amended C4 theorem at base (0, 5). -/
theorem folder_init_never_fails_witness :
    (∀ e : DLError, folderInitLevels 0 5 ≠ Except.error e) ∧
      computeLevels 0 5 ≠ [] :=
  ⟨(folder_init_never_fails 0 5).1, (folder_init_never_fails 0 5).2.2 (by decide)⟩

/-- An HTTP response as the code sees it: `session.get(url)` yields an
object with a status code and a body; the code reads only `.content`
(line 50) and never inspects the status. -/
structure Response where
  status : Nat
  content : List Nat
deriving Repr, DecidableEq

/-- The on-disk tile cache: a file name mapped to the bytes it holds, or
`none` when `os.path.exists` is false (line 49). -/
def Cache : Type := String → Option (List Nat)

/-- Writing a file: afterwards the path holds exactly the written bytes
and every other path is untouched (lines 51-52). -/
def updateCache (c : Cache) (p : String) (v : List Nat) : Cache :=
  fun q => if q = p then some v else c q

/-- The deterministic per-tile file name `"{x}_{y}.{format}"` placed in
the image folder (lines 46-48). -/
def tilePath (x y : Nat) (fmt : String) : String :=
  toString x ++ "_" ++ toString y ++ "." ++ fmt

/-- The remote tile address `"{path}/{level_index+1}/{x}_{y}.{format}"`
(lines 43-45); levels are reported to the remote 1-indexed. -/
def tileUrl (path : String) (levelIndex x y : Nat) (fmt : String) : String :=
  path ++ "/" ++ toString (levelIndex + 1) ++ "/" ++ tilePath x y fmt

/-- Result of one ensure/download step for a tile: the tile's local path
together with the cache contents and HTTP GET count after the step. -/
structure EnsureResult where
  path : String
  cache : Cache
  calls : Nat

/-- One iteration of the download loop (lines 49-52): if the output path
does not exist, or `force_download` is set, issue one `session.get(url)`
and write the response body to the path; otherwise touch nothing.  The
HTTP status is never inspected, and nothing is ever raised. -/
def ensureTile (env : String → Response) (force : Bool) (url out : String)
    (cache : Cache) (calls : Nat) : EnsureResult :=
  if cache out = none ∨ force = true then
    ⟨out, updateCache cache out (env url).content, calls + 1⟩
  else ⟨out, cache, calls⟩

/-- The x-outer, y-inner traversal of the tile grid (lines 41-42 and
60-61). -/
def tileList (cols rws : Nat) : List (Nat × Nat) :=
  (List.range cols).flatMap fun x => (List.range rws).map fun y => (x, y)

/-- Column count `math.ceil(level["width"] / self.tile_size)` (lines 37
and 56) in exact integer arithmetic. -/
def columns (w ts : Nat) : Nat := (w + ts - 1) / ts

/-- Row count `math.ceil(level["height"] / self.tile_size)` (lines 38
and 57). -/
def rows (h ts : Nat) : Nat := (h + ts - 1) / ts

/-- The body of the download loop for one grid cell `xy` (lines 43-52),
updating the run state. -/
def downloadStep (env : String → Response) (force : Bool) (path : String)
    (levelIndex : Nat) (fmt : String) (st : Cache × Nat)
    (xy : Nat × Nat) : Cache × Nat :=
  let r := ensureTile env force (tileUrl path levelIndex xy.1 xy.2 fmt)
    (tilePath xy.1 xy.2 fmt) st.1 st.2
  (r.cache, r.calls)

/-- `Folder.download` (lines 35-52) over one level of size `w × h`: visit
every tile of the grid and run the per-tile ensure step, threading the
cache and the GET count. -/
def downloadLevel (env : String → Response) (force : Bool) (path : String)
    (levelIndex : Nat) (w h ts : Nat) (fmt : String)
    (cache : Cache) (calls : Nat) : Cache × Nat :=
  (tileList (columns w ts) (rows h ts)).foldl
    (downloadStep env force path levelIndex fmt) (cache, calls)

/-- An in-memory raster: dimensions plus a pixel function. -/
structure Canvas where
  width : Nat
  height : Nat
  pix : Nat → Nat → Nat

/-- `result.paste(src_image, (ox, oy))` (line 66): pixels of `img` land at
offset `(ox, oy)`, anything outside the canvas bounds is clipped, and the
canvas dimensions are unchanged. -/
def pasteImg (c img : Canvas) (ox oy : Nat) : Canvas where
  width := c.width
  height := c.height
  pix := fun px py =>
    if ox ≤ px ∧ px < ox + img.width ∧ px < c.width ∧
        oy ≤ py ∧ py < oy + img.height ∧ py < c.height then
      img.pix (px - ox) (py - oy)
    else c.pix px py

/-- One iteration of the join loop (lines 60-66): `Image.open` fails when
the tile's file is missing or its bytes do not decode; otherwise the
decoded tile is pasted at `(x * ts, y * ts)`. -/
def joinStep (decode : List Nat → Option Canvas) (cache : Cache) (ts : Nat)
    (fmt : String) (acc : Option Canvas) (xy : Nat × Nat) : Option Canvas :=
  match acc with
  | none => none
  | some c =>
    match cache (tilePath xy.1 xy.2 fmt) with
    | none => none
    | some bytes =>
      match decode bytes with
      | none => none
      | some img => some (pasteImg c img (xy.1 * ts) (xy.2 * ts))

/-- `Folder.join_tiles` (lines 54-67): a blank canvas of the level's exact
dimensions (`Image.new("RGB", (w, h))`, line 59) with every grid tile
decoded and pasted; `none` models the run aborting with an exception. -/
def joinTiles (decode : List Nat → Option Canvas) (cache : Cache)
    (w h ts : Nat) (fmt : String) : Option Canvas :=
  (tileList (columns w ts) (rows h ts)).foldl (joinStep decode cache ts fmt)
    (some ⟨w, h, fun _ _ => 0⟩)

/-- A primitive filesystem operation of the cache write. -/
inductive FsOp where
  | openTrunc : String → FsOp
  | writeAll : String → List Nat → FsOp
deriving Repr, DecidableEq

/-- Observable filesystem contents: file name to bytes held. -/
def FsState : Type := String → Option (List Nat)

def applyOp (s : FsState) : FsOp → FsState
  | FsOp.openTrunc p => fun q => if q = p then some [] else s q
  | FsOp.writeAll p d => fun q => if q = p then some d else s q

def applyOps (s : FsState) (ops : List FsOp) : FsState :=
  ops.foldl applyOp s

/-- The filesystem operations of the cache write (lines 51-52):
`open(outPath, "wb")` creates/truncates the final path in place, then
`file.write(blob)` fills it.  No temporary file and no rename occur. -/
def writeTileOps (p : String) (blob : List Nat) : List FsOp :=
  [FsOp.openTrunc p, FsOp.writeAll p blob]

/-- Atomicity of a write trace in the spec's sense: at every interruption
point (after every prefix of the trace) the tile's path holds either its
prior contents or the full body — never a partially written entry. -/
def atomicObservable (s0 : FsState) (ops : List FsOp) (p : String)
    (blob : List Nat) : Prop :=
  ∀ k, k ≤ ops.length →
    applyOps s0 (ops.take k) p = s0 p ∨ applyOps s0 (ops.take k) p = some blob

/-- Width of the (clipped) tile rectangle in column `x`: the full tile
size except at the right edge, where the level's width cuts it short. -/
def rectW (w ts x : Nat) : Nat := min ts (w - x * ts)

/-- Height of the (clipped) tile rectangle in row `y`. -/
def rectH (h ts y : Nat) : Nat := min ts (h - y * ts)

/-- The pixel `(px, py)` lies in the tile rectangle of grid cell `(x, y)`:
origin `(x * ts, y * ts)`, extent `rectW × rectH`. -/
def inRect (w h ts x y px py : Nat) : Prop :=
  x * ts ≤ px ∧ px < x * ts + rectW w ts x ∧
  y * ts ≤ py ∧ py < y * ts + rectH h ts y

theorem updateCache_self (c : Cache) (p : String) (v : List Nat) :
    updateCache c p v p = some v := by
  simp [updateCache]

/-- C6: idempotence of the ensure/download step with forceRefresh = false.
If the tile's deterministic path already holds a file, the step performs
no network call and yields that same path with the cache unchanged; and
starting from a cache miss, two consecutive ensure steps perform exactly
one network call between them and return the same path both times. -/
theorem ensure_idempotent (env : String → Response) (url out : String)
    (cache : Cache) (calls : Nat) :
    (cache out ≠ none →
      ensureTile env false url out cache calls = ⟨out, cache, calls⟩) ∧
    (cache out = none →
      (ensureTile env false url out
          (ensureTile env false url out cache calls).cache
          (ensureTile env false url out cache calls).calls).calls = calls + 1 ∧
      (ensureTile env false url out cache calls).path = out ∧
      (ensureTile env false url out
          (ensureTile env false url out cache calls).cache
          (ensureTile env false url out cache calls).calls).path = out) := by
  constructor
  · intro hsome
    rw [ensureTile, if_neg (by simp [hsome])]
  · intro hnone
    have h1 : ensureTile env false url out cache calls =
        ⟨out, updateCache cache out (env url).content, calls + 1⟩ := by
      rw [ensureTile, if_pos (Or.inl hnone)]
    rw [h1]
    have h2 : ensureTile env false url out
        (updateCache cache out (env url).content) (calls + 1) =
        ⟨out, updateCache cache out (env url).content, calls + 1⟩ := by
      rw [ensureTile, if_neg (by simp [updateCache_self])]
    exact ⟨by rw [h2], rfl, by rw [h2]⟩

/-- Witness for the C6 theorem: a cache already holding "0_0.jpg" is
returned untouched with no GET, and from the empty cache two steps make
exactly one GET. -/
theorem ensure_idempotent_witness :
    ensureTile (fun _ => ⟨200, [1]⟩) false "u" "0_0.jpg"
        (fun p => if p = "0_0.jpg" then some [9] else none) 0 =
      ⟨"0_0.jpg", fun p => if p = "0_0.jpg" then some [9] else none, 0⟩ ∧
    (ensureTile (fun _ => ⟨200, [1]⟩) false "u" "0_0.jpg"
        (ensureTile (fun _ => ⟨200, [1]⟩) false "u" "0_0.jpg"
          (fun _ => none) 0).cache
        (ensureTile (fun _ => ⟨200, [1]⟩) false "u" "0_0.jpg"
          (fun _ => none) 0).calls).calls = 0 + 1 :=
  ⟨(ensure_idempotent (fun _ => ⟨200, [1]⟩) "u" "0_0.jpg"
      (fun p => if p = "0_0.jpg" then some [9] else none) 0).1 (by decide),
    ((ensure_idempotent (fun _ => ⟨200, [1]⟩) "u" "0_0.jpg"
      (fun _ => none) 0).2 rfl).1⟩

/-- C7: with forceRefresh = true the step performs the HTTP GET although a
cache file exists at the tile's path, and overwrites that file with the
newly fetched response body. -/
theorem force_refresh_refetches (env : String → Response) (url out : String)
    (cache : Cache) (calls : Nat) (b : List Nat) (_hsome : cache out = some b) :
    (ensureTile env true url out cache calls).calls = calls + 1 ∧
    (ensureTile env true url out cache calls).cache out = some (env url).content ∧
    (ensureTile env true url out cache calls).path = out := by
  rw [ensureTile, if_pos (Or.inr rfl)]
  exact ⟨rfl, updateCache_self cache out (env url).content, rfl⟩

/-- Witness for the C7 theorem: the cached bytes [9] at "0_0.jpg" are
replaced by the fetched bytes [5] and the GET is performed. -/
theorem force_refresh_refetches_witness :
    (ensureTile (fun _ => ⟨200, [5]⟩) true "u" "0_0.jpg"
        (fun p => if p = "0_0.jpg" then some [9] else none) 0).calls = 0 + 1 ∧
    (ensureTile (fun _ => ⟨200, [5]⟩) true "u" "0_0.jpg"
        (fun p => if p = "0_0.jpg" then some [9] else none) 0).cache "0_0.jpg" =
      some ((fun (_ : String) => (⟨200, [5]⟩ : Response)) "u").content ∧
    (ensureTile (fun _ => ⟨200, [5]⟩) true "u" "0_0.jpg"
        (fun p => if p = "0_0.jpg" then some [9] else none) 0).path = "0_0.jpg" :=
  force_refresh_refetches (fun _ => ⟨200, [5]⟩) "u" "0_0.jpg"
    (fun p => if p = "0_0.jpg" then some [9] else none) 0 [9] (by decide)

/-- C3 counterexample: a 1×1 level (a single tile) whose GET returns HTTP
404 with body [1, 2, 3].  The download step does not fail: it performs the
GET, keeps the 404 body as the tile's cache entry, and the subsequent join
over that cache still produces an output raster. -/
theorem fetch_404_kept_cex :
    (downloadLevel (fun _ => ⟨404, [1, 2, 3]⟩) false "base" 0 1 1 1 "jpg"
        (fun _ => none) 0).1 (tilePath 0 0 "jpg") = some [1, 2, 3] ∧
    (downloadLevel (fun _ => ⟨404, [1, 2, 3]⟩) false "base" 0 1 1 1 "jpg"
        (fun _ => none) 0).2 = 1 ∧
    (joinTiles (fun _ => some ⟨1, 1, fun _ _ => 0⟩)
        (downloadLevel (fun _ => ⟨404, [1, 2, 3]⟩) false "base" 0 1 1 1 "jpg"
          (fun _ => none) 0).1 1 1 1 "jpg").isSome = true := by
  refine ⟨by decide, by decide, by decide⟩

/-- C3 (amended): the fetch step never consults the HTTP status and never
fails: for a tile not in the cache, whatever the response status (404
included), one GET is performed, the response body is written as the
tile's cache entry, and the step returns the path normally — so the
level's assembly proceeds with those bytes. -/
theorem fetch_ignores_status (env : String → Response) (force : Bool)
    (url out : String) (cache : Cache) (calls : Nat) (hmiss : cache out = none) :
    ensureTile env force url out cache calls =
      ⟨out, updateCache cache out (env url).content, calls + 1⟩ ∧
    (ensureTile env force url out cache calls).cache out =
      some (env url).content := by
  have h1 : ensureTile env force url out cache calls =
      ⟨out, updateCache cache out (env url).content, calls + 1⟩ := by
    rw [ensureTile, if_pos (Or.inl hmiss)]
  exact ⟨h1, by rw [h1]; exact updateCache_self cache out (env url).content⟩

/-- Witness for the amended C3 theorem: a 404 response's body [7] is
cached for the tile and the step returns normally. -/
theorem fetch_ignores_status_witness :
    ensureTile (fun _ => ⟨404, [7]⟩) false "u" "0_0.jpg" (fun _ => none) 0 =
      ⟨"0_0.jpg", updateCache (fun _ => none) "0_0.jpg"
        ((fun (_ : String) => (⟨404, [7]⟩ : Response)) "u").content, 0 + 1⟩ ∧
    (ensureTile (fun _ => ⟨404, [7]⟩) false "u" "0_0.jpg"
        (fun _ => none) 0).cache "0_0.jpg" =
      some ((fun (_ : String) => (⟨404, [7]⟩ : Response)) "u").content :=
  fetch_ignores_status (fun _ => ⟨404, [7]⟩) false "u" "0_0.jpg"
    (fun _ => none) 0 rfl

/-- C5 counterexample: writing tile body [7, 7] to "0_0.jpg" on an empty
filesystem is not atomically observable: interrupted after the first of
its two operations (the truncating open), the path holds the partial entry
`[]` — neither its prior state (absent) nor the full body. -/
theorem write_not_atomic_cex :
    ¬ atomicObservable (fun _ => none) (writeTileOps "0_0.jpg" [7, 7])
      "0_0.jpg" [7, 7] := by
  intro hat
  have h := hat 1 (by decide)
  rcases h with h | h <;> simp [applyOps, applyOp, writeTileOps] at h

/-- C5 (amended): the cache write is direct and not atomic: the
uninterrupted trace leaves the full response body at the tile's path, but
an interruption between the truncating open and the write leaves an empty
partial entry observable at that same path to later runs. -/
theorem write_direct_partial (p : String) (blob : List Nat) (s0 : FsState) :
    applyOps s0 (writeTileOps p blob) p = some blob ∧
    applyOps s0 ((writeTileOps p blob).take 1) p = some [] := by
  constructor <;> simp [applyOps, writeTileOps, applyOp]

theorem columns_zero (ts : Nat) (hts : 0 < ts) : columns 0 ts = 0 := by
  rw [columns]
  exact Nat.div_eq_of_lt (by omega)

theorem columns_of_le (ts w : Nat) (hts : 0 < ts) (hw : 0 < w) (hle : w ≤ ts) :
    columns w ts = 1 := by
  rw [columns]
  have heq : w + ts - 1 = (w - 1) + ts := by omega
  rw [heq, Nat.add_div_right _ hts, Nat.div_eq_of_lt (by omega)]

theorem columns_of_gt (ts w : Nat) (hts : 0 < ts) (hgt : ts < w) :
    columns w ts = columns (w - ts) ts + 1 := by
  rw [columns, columns]
  have heq : w + ts - 1 = ((w - ts) + ts - 1) + ts := by omega
  rw [heq, Nat.add_div_right _ hts]

theorem rectW_succ (w ts x : Nat) :
    rectW w ts (x + 1) = rectW (w - ts) ts x := by
  rw [rectW, rectW]
  congr 1
  have heq : (x + 1) * ts = x * ts + ts := by ring
  omega

/-- Summing the (clipped) tile widths across all columns recovers the
level width exactly. -/
theorem sum_rectW_aux (ts : Nat) (hts : 0 < ts) :
    ∀ n w, w ≤ n → ∑ x in Finset.range (columns w ts), rectW w ts x = w := by
  intro n
  induction n with
  | zero =>
    intro w hw
    have hw0 : w = 0 := by omega
    subst hw0
    rw [columns_zero ts hts]
    simp
  | succ n ih =>
    intro w hw
    rcases Nat.eq_zero_or_pos w with hw0 | hwpos
    · subst hw0
      rw [columns_zero ts hts]
      simp
    · by_cases hle : w ≤ ts
      · rw [columns_of_le ts w hts hwpos hle, Finset.sum_range_one, rectW]
        simp [Nat.min_eq_right hle]
      · push_neg at hle
        rw [columns_of_gt ts w hts hle, Finset.sum_range_succ']
        rw [Finset.sum_congr rfl (fun x _ => rectW_succ w ts x)]
        rw [ih (w - ts) (by omega), rectW]
        have hmin : min ts (w - 0 * ts) = ts := by
          have h0 : w - 0 * ts = w := by simp
          rw [h0]
          exact Nat.min_eq_left (le_of_lt hle)
        rw [hmin]
        omega

theorem sum_rectW (w ts : Nat) (hts : 0 < ts) :
    ∑ x in Finset.range (columns w ts), rectW w ts x = w :=
  sum_rectW_aux ts hts w w le_rfl

/-- Two distinct column indices give horizontally disjoint rectangles. -/
theorem rect_disjoint_cols (ts x1 x2 px a : Nat) (hlt : x1 < x2)
    (hpx : px < x1 * ts + min ts a) (hge : x2 * ts ≤ px) : False := by
  have h1 : px < x1 * ts + ts :=
    lt_of_lt_of_le hpx (Nat.add_le_add_left (Nat.min_le_left ts a) _)
  have h2 : x1 * ts + ts ≤ x2 * ts := by
    have hmul : (x1 + 1) * ts ≤ x2 * ts := Nat.mul_le_mul_right ts hlt
    calc x1 * ts + ts = (x1 + 1) * ts := by ring
      _ ≤ x2 * ts := hmul
  omega

/-- C8: for a level of positive dimensions and a positive tile size, the
grid's tile rectangles partition the level: their areas sum exactly to
width × height, and no two rectangles of distinct grid cells share a
pixel. -/
theorem grid_partition (w h ts : Nat) (_hw : 0 < w) (_hh : 0 < h)
    (hts : 0 < ts) :
    (∑ x in Finset.range (columns w ts), ∑ y in Finset.range (rows h ts),
        rectW w ts x * rectH h ts y) = w * h ∧
    (∀ x1 y1 x2 y2 px py, x1 < columns w ts → y1 < rows h ts →
      x2 < columns w ts → y2 < rows h ts → (x1, y1) ≠ (x2, y2) →
      inRect w h ts x1 y1 px py → inRect w h ts x2 y2 px py → False) := by
  constructor
  · rw [← Finset.sum_mul_sum]
    rw [sum_rectW w ts hts]
    exact congrArg (fun t => w * t) (sum_rectW h ts hts)
  · intro x1 y1 x2 y2 px py hx1 hy1 hx2 hy2 hne hin1 hin2
    obtain ⟨hpx1, hpx1u, hpy1, hpy1u⟩ := hin1
    obtain ⟨hpx2, hpx2u, hpy2, hpy2u⟩ := hin2
    rcases Nat.lt_trichotomy x1 x2 with hxlt | hxeq | hxgt
    · exact rect_disjoint_cols ts x1 x2 px _ hxlt hpx1u hpx2
    · subst hxeq
      rcases Nat.lt_trichotomy y1 y2 with hylt | hyeq | hygt
      · exact rect_disjoint_cols ts y1 y2 py _ hylt hpy1u hpy2
      · exact hne (by rw [hyeq])
      · exact rect_disjoint_cols ts y2 y1 py _ hygt hpy2u hpy1
    · exact rect_disjoint_cols ts x2 x1 px _ hxgt hpx2u hpx1

/-- Witness for the C8 theorem: level 3 × 2 with tile size 2 (two columns,
one of them clipped to width 1). -/
theorem grid_partition_witness :
    0 < 3 ∧ 0 < 2 ∧
      ((∑ x in Finset.range (columns 3 2), ∑ y in Finset.range (rows 2 2),
          rectW 3 2 x * rectH 2 2 y) = 3 * 2 ∧
      (∀ x1 y1 x2 y2 px py, x1 < columns 3 2 → y1 < rows 2 2 →
        x2 < columns 3 2 → y2 < rows 2 2 → (x1, y1) ≠ (x2, y2) →
        inRect 3 2 2 x1 y1 px py → inRect 3 2 2 x2 y2 px py → False)) :=
  ⟨by decide, by decide, grid_partition 3 2 2 (by decide) (by decide) (by decide)⟩

theorem pasteImg_width (c img : Canvas) (ox oy : Nat) :
    (pasteImg c img ox oy).width = c.width := rfl

theorem pasteImg_height (c img : Canvas) (ox oy : Nat) :
    (pasteImg c img ox oy).height = c.height := rfl

/-- Folding the join loop never changes the canvas dimensions: whatever
raster comes out has the dimensions the accumulator started with. -/
theorem joinFold_dims (decode : List Nat → Option Canvas) (cache : Cache)
    (ts : Nat) (fmt : String) :
    ∀ (l : List (Nat × Nat)) (acc : Option Canvas) (wd ht : Nat),
      (∀ c0, acc = some c0 → c0.width = wd ∧ c0.height = ht) →
      ∀ c, l.foldl (joinStep decode cache ts fmt) acc = some c →
        c.width = wd ∧ c.height = ht := by
  intro l
  induction l with
  | nil =>
    intro acc wd ht hacc c hc
    exact hacc c hc
  | cons xy rest ih =>
    intro acc wd ht hacc c hc
    rw [List.foldl_cons] at hc
    refine ih _ wd ht ?_ c hc
    intro c0 h0
    cases acc with
    | none => simp [joinStep] at h0
    | some cprev =>
      obtain ⟨hwd, hht⟩ := hacc cprev rfl
      simp only [joinStep] at h0
      split at h0
      · exact absurd h0 (by simp)
      · split at h0
        · exact absurd h0 (by simp)
        · cases h0
          exact ⟨hwd, hht⟩

/-- C9: any raster `Folder.join_tiles` produces has exactly the level's
dimensions `w × h` — the `Image.new` size, which pasting never alters —
whether or not `w` or `h` divides evenly by the tile size. -/
theorem join_exact_dims (decode : List Nat → Option Canvas) (cache : Cache)
    (w h ts : Nat) (fmt : String) (c : Canvas)
    (hj : joinTiles decode cache w h ts fmt = some c) :
    c.width = w ∧ c.height = h := by
  refine joinFold_dims decode cache ts fmt _ _ w h ?_ c hj
  intro c0 h0
  cases h0
  exact ⟨rfl, rfl⟩

/-- Witness for the C9 theorem: a 1 × 1 level joined from one cached,
decodable tile yields a raster of exactly 1 × 1. -/
theorem join_exact_dims_witness :
    (pasteImg ⟨1, 1, fun _ _ => 0⟩ ⟨1, 1, fun _ _ => 5⟩ 0 0).width = 1 ∧
    (pasteImg ⟨1, 1, fun _ _ => 0⟩ ⟨1, 1, fun _ _ => 5⟩ 0 0).height = 1 :=
  join_exact_dims (fun _ => some ⟨1, 1, fun _ _ => 5⟩)
    (fun p => if p = tilePath 0 0 "jpg" then some [3] else none) 1 1 1 "jpg"
    (pasteImg ⟨1, 1, fun _ _ => 0⟩ ⟨1, 1, fun _ _ => 5⟩ 0 0) rfl

theorem mem_tileList (cols rws x y : Nat) :
    (x, y) ∈ tileList cols rws ↔ x < cols ∧ y < rws := by
  simp only [tileList, List.mem_flatMap, List.mem_map, List.mem_range,
    Prod.mk.injEq]
  constructor
  · rintro ⟨a, ha, b, hb, hax, hby⟩
    subst hax; subst hby
    exact ⟨ha, hb⟩
  · rintro ⟨hx, hy⟩
    exact ⟨x, hx, y, hy, rfl, rfl⟩

/-- The ensure step never removes a present cache entry. -/
theorem ensure_preserves_present (env : String → Response) (force : Bool)
    (url out : String) (cache : Cache) (calls : Nat) (q : String)
    (hq : cache q ≠ none) :
    (ensureTile env force url out cache calls).cache q ≠ none := by
  rw [ensureTile]
  split
  · show updateCache cache out (env url).content q ≠ none
    rw [updateCache]
    split
    · simp
    · exact hq
  · exact hq

/-- After the ensure step, the tile's own path is present. -/
theorem ensure_sets_present (env : String → Response) (force : Bool)
    (url out : String) (cache : Cache) (calls : Nat) :
    (ensureTile env force url out cache calls).cache out ≠ none := by
  rw [ensureTile]
  split
  · show updateCache cache out (env url).content out ≠ none
    rw [updateCache_self]
    simp
  · next hcond =>
    intro habs
    exact hcond (Or.inl habs)

theorem downloadFold_preserves (env : String → Response) (force : Bool)
    (path : String) (levelIndex : Nat) (fmt : String) :
    ∀ (l : List (Nat × Nat)) (st : Cache × Nat) (q : String), st.1 q ≠ none →
      (l.foldl (downloadStep env force path levelIndex fmt) st).1 q ≠ none := by
  intro l
  induction l with
  | nil =>
    intro st q hq
    exact hq
  | cons xy rest ih =>
    intro st q hq
    rw [List.foldl_cons]
    exact ih _ q (ensure_preserves_present env force _ _ st.1 st.2 q hq)

theorem downloadFold_sets (env : String → Response) (force : Bool)
    (path : String) (levelIndex : Nat) (fmt : String) :
    ∀ (l : List (Nat × Nat)) (st : Cache × Nat) (xy : Nat × Nat), xy ∈ l →
      (l.foldl (downloadStep env force path levelIndex fmt) st).1
        (tilePath xy.1 xy.2 fmt) ≠ none := by
  intro l
  induction l with
  | nil =>
    intro st xy h
    cases h
  | cons a rest ih =>
    intro st xy hmem
    rw [List.foldl_cons]
    rcases List.mem_cons.mp hmem with heq | htail
    · subst heq
      exact downloadFold_preserves env force path levelIndex fmt rest _ _
        (ensure_sets_present env force _ _ st.1 st.2)
    · exact ih _ xy htail

/-- If every tile of the list is cached and every cached body decodes, the
join fold completes with a raster. -/
theorem joinFold_isSome (decode : List Nat → Option Canvas) (cache : Cache)
    (ts : Nat) (fmt : String) (hdec : ∀ b, decode b ≠ none) :
    ∀ (l : List (Nat × Nat)) (c : Canvas),
      (∀ xy ∈ l, cache (tilePath xy.1 xy.2 fmt) ≠ none) →
      (l.foldl (joinStep decode cache ts fmt) (some c)).isSome = true := by
  intro l
  induction l with
  | nil =>
    intro c hall
    rfl
  | cons xy rest ih =>
    intro c hall
    rw [List.foldl_cons]
    rcases hcl : cache (tilePath xy.1 xy.2 fmt) with _ | bytes
    · exact absurd hcl (hall xy (List.mem_cons_self xy rest))
    · rcases hdc : decode bytes with _ | img
      · exact absurd hdc (hdec bytes)
      · have hstep : joinStep decode cache ts fmt (some c) xy =
            some (pasteImg c img (xy.1 * ts) (xy.2 * ts)) := by
          simp only [joinStep]
          rw [hcl]
          dsimp only
          rw [hdc]
        rw [hstep]
        exact ih _ (fun z hz => hall z (List.mem_cons_of_mem xy hz))

/-- C10: after `Folder.download` over a level's grid, every cell's
deterministic cache path `{x}_{y}.{format}` holds a file, so the
subsequent `Folder.join_tiles` over the same folder never encounters a
missing tile file — with every tile decodable it produces a raster. -/
theorem download_completes_grid (env : String → Response) (force : Bool)
    (path : String) (levelIndex : Nat) (w h ts : Nat) (fmt : String)
    (cache : Cache) (calls : Nat) (decode : List Nat → Option Canvas) :
    (∀ x y, x < columns w ts → y < rows h ts →
      (downloadLevel env force path levelIndex w h ts fmt cache calls).1
        (tilePath x y fmt) ≠ none) ∧
    ((∀ b, decode b ≠ none) →
      (joinTiles decode
        (downloadLevel env force path levelIndex w h ts fmt cache calls).1
        w h ts fmt).isSome = true) := by
  constructor
  · intro x y hx hy
    exact downloadFold_sets env force path levelIndex fmt
      (tileList (columns w ts) (rows h ts)) (cache, calls) (x, y)
      ((mem_tileList (columns w ts) (rows h ts) x y).mpr ⟨hx, hy⟩)
  · intro hdec
    exact joinFold_isSome decode _ ts fmt hdec
      (tileList (columns w ts) (rows h ts)) ⟨w, h, fun _ _ => 0⟩
      (fun xy hxy => downloadFold_sets env force path levelIndex fmt
        (tileList (columns w ts) (rows h ts)) (cache, calls) xy hxy)

/-- Witness for the C10 theorem: a 1 × 1 level downloaded from the empty
cache has its single tile file present, and the join over it succeeds. -/
theorem download_completes_grid_witness :
    (downloadLevel (fun _ => ⟨200, [5]⟩) false "b" 0 1 1 1 "t"
        (fun _ => none) 0).1 (tilePath 0 0 "t") ≠ none ∧
    (joinTiles (fun _ => some ⟨1, 1, fun _ _ => 0⟩)
        (downloadLevel (fun _ => ⟨200, [5]⟩) false "b" 0 1 1 1 "t"
          (fun _ => none) 0).1 1 1 1 "t").isSome = true :=
  ⟨(download_completes_grid (fun _ => ⟨200, [5]⟩) false "b" 0 1 1 1 "t"
      (fun _ => none) 0 (fun _ => some ⟨1, 1, fun _ _ => 0⟩)).1 0 0
      (by decide) (by decide),
    (download_completes_grid (fun _ => ⟨200, [5]⟩) false "b" 0 1 1 1 "t"
      (fun _ => none) 0 (fun _ => some ⟨1, 1, fun _ _ => 0⟩)).2
      (fun b habs => Option.noConfusion habs)⟩
